import Mathlib

set_option maxHeartbeats 2000000

/-!
Shallow embedding of the propositional-logic engine (`logic_parser.py`,
`truth_table.py`, `simplifier.py`) and proofs about the claims of its
specification.

Strings are modelled at the level of Unicode code points (`Char`); Python's
`str.upper` is modelled on the ASCII letters, which is exact on every
character class the program manipulates (its operator alphabet and the
`A–Z0–9` token alphabet).  Python exceptions are modelled with `Option` /
`Except`: `toPostfix` returns `none` where the source would raise
`IndexError` (popping an operator stack that holds no `'('`), and postfix
evaluation returns `Except.error` where the source raises `ValueError`.
-/

/-! ### Character classes (as used by the source's regexes and `str` methods) -/

/-- The character class `[A-Za-z0-9]` of `_tokenize`'s token regex. -/
def isAlnumChar (c : Char) : Bool :=
  (48 ≤ c.toNat && c.toNat ≤ 57) || (65 ≤ c.toNat && c.toNat ≤ 90) ||
    (97 ≤ c.toNat && c.toNat ≤ 122)

/-- ASCII alphabetic, the relevant case of Python's `str.isalpha`. -/
def isAlphaChar (c : Char) : Bool :=
  (65 ≤ c.toNat && c.toNat ≤ 90) || (97 ≤ c.toNat && c.toNat ≤ 122)

/-- ASCII uppercase, the relevant case of Python's `str.isupper` on one char. -/
def isUpperChar (c : Char) : Bool := 65 ≤ c.toNat && c.toNat ≤ 90

/-- ASCII digit, the relevant case of Python's `str.isdigit`. -/
def isDigitChar (c : Char) : Bool := 48 ≤ c.toNat && c.toNat ≤ 57

/-- The whitespace recognised by Python's `str.strip` / the regex `\s`
(ASCII range). -/
def isWsChar (c : Char) : Bool :=
  c.toNat == 32 || c.toNat == 9 || c.toNat == 10 || c.toNat == 11 ||
    c.toNat == 12 || c.toNat == 13

/-- Python `str.upper`, restricted to the ASCII letters (the only characters
on which the program's `upper` calls act). -/
def pyUpperChar (c : Char) : Char :=
  if 97 ≤ c.toNat && c.toNat ≤ 122 then Char.ofNat (c.toNat - 32) else c

/-- `str.upper` on a whole string. -/
def pyUpperStr (s : String) : String := ⟨s.data.map pyUpperChar⟩

/-- `l.strip()`: drop leading and trailing whitespace. -/
def stripChars (l : List Char) : List Char :=
  ((l.dropWhile isWsChar).reverse.dropWhile isWsChar).reverse

/-- `str.strip` on a `String`. -/
def pyStrip (s : String) : String := ⟨stripChars s.data⟩

/-- Is `pat` a prefix of `l`?  (Used for Python `str.replace` and `in`.) -/
def isPre : List Char → List Char → Bool
  | [], _ => true
  | _ :: _, [] => false
  | p :: ps, c :: cs => p == c && isPre ps cs

/-- One fuelled step of Python `str.replace`: replace every non-overlapping
occurrence of `pat` (scanning left to right) by `rep`.  The fuel is the
length of the string, which always suffices because a non-empty match
consumes at least one character. -/
def replaceAllF : Nat → List Char → List Char → List Char → List Char
  | 0, s, _, _ => s
  | _ + 1, [], _, _ => []
  | f + 1, c :: cs, pat, rep =>
    if !pat.isEmpty && isPre pat (c :: cs) then
      rep ++ replaceAllF f ((c :: cs).drop pat.length) pat rep
    else
      c :: replaceAllF f cs pat rep

/-- Python `s.replace(pat, rep)` over char lists. -/
def replaceAll (s pat rep : List Char) : List Char := replaceAllF s.length s pat rep

/-- Python `pat in s` (substring containment), fuelled by the string length. -/
def containsSubF : Nat → List Char → List Char → Bool
  | 0, l, pat => isPre pat l
  | f + 1, l, pat =>
    isPre pat l ||
      match l with
      | [] => false
      | _ :: cs => containsSubF f cs pat

/-- Python `pat in s`. -/
def containsSub (s pat : List Char) : Bool := containsSubF s.length s pat

/-- Replace every maximal run of whitespace by a single space
(`re.sub(r'\s+', ' ', ·)`), fuelled by the length. -/
def squeezeWsF : Nat → List Char → List Char
  | 0, l => l
  | _ + 1, [] => []
  | f + 1, c :: cs =>
    if isWsChar c then ' ' :: squeezeWsF f (cs.dropWhile isWsChar)
    else c :: squeezeWsF f cs

/-- `re.sub(r'\s+', ' ', ·)` over char lists. -/
def squeezeWs (l : List Char) : List Char := squeezeWsF l.length l

/-- Python `<` on strings: lexicographic comparison by code point. -/
def charListLt : List Char → List Char → Bool
  | [], [] => false
  | [], _ :: _ => true
  | _ :: _, [] => false
  | a :: as, b :: bs => decide (a.toNat < b.toNat) || (a == b && charListLt as bs)

/-- Python `<=` on strings. -/
def strLe (a b : String) : Bool := a == b || charListLt a.data b.data

/-- Insert into a `strLe`-sorted list (auxiliary for `sorted`). -/
def insertStr (a : String) : List String → List String
  | [] => [a]
  | b :: rest => if strLe a b then a :: b :: rest else b :: insertStr a rest

/-- Python `sorted` on strings (insertion sort; stability is irrelevant here
because it is only applied to duplicate-free lists). -/
def sortStrings : List String → List String
  | [] => []
  | a :: rest => insertStr a (sortStrings rest)

/-- Remove duplicates, modelling the passage through Python `set`
(the retained occurrence is irrelevant: the result is always sorted). -/
def dedupStr : List String → List String
  | [] => []
  | s :: rest =>
    if (dedupStr rest).contains s then dedupStr rest else s :: dedupStr rest

/-- Remove duplicate characters (for the `set` in `_find_invalid_characters`;
the source's `set` iteration order is unspecified, and nothing below depends
on the order of this list, only on its emptiness). -/
def dedupChars : List Char → List Char
  | [] => []
  | c :: rest =>
    if (dedupChars rest).contains c then dedupChars rest else c :: dedupChars rest

/-! ### `LogicParser` (logic_parser.py) -/

/-- `self.operators` (all accepted operator spellings). -/
def operators : List String :=
  ["¬", "~", "!",
   "∧", "&", "&&", "AND",
   "∨", "|", "||", "OR",
   "→", "->", "=>", "IMP",
   "↔", "<->", "<=>", "XNOR",
   "⊕", "^", "XOR",
   "NAND", "NOR"]

/-- `self.operator_precedence`. -/
def operator_precedence : List (String × Nat) :=
  [("¬", 4), ("~", 4), ("!", 4),
   ("∧", 3), ("&", 3), ("&&", 3), ("AND", 3),
   ("∨", 2), ("|", 2), ("||", 2), ("OR", 2),
   ("→", 1), ("->", 1), ("=>", 1), ("IMP", 1),
   ("↔", 1), ("<->", 1), ("<=>", 1), ("XNOR", 1),
   ("⊕", 2), ("^", 2), ("XOR", 2),
   ("NAND", 3), ("NOR", 2)]

/-- `self.operator_precedence.get(token, 0)`. -/
def prec (t : String) : Nat := ((operator_precedence).lookup t).getD 0

/-- The ordered multi-character-operator substitution table of `_tokenize`
(Python dict literals preserve insertion order). -/
def tokenizeReplacements : List (String × String) :=
  [("&&", " ∧ "), (" AND ", " ∧ "),
   ("||", " ∨ "), (" OR ", " ∨ "),
   ("->", " → "), ("=>", " → "), (" IMP ", " → "),
   ("<->", " ↔ "), ("<=>", " ↔ "), (" XNOR ", " ↔ "),
   (" XOR ", " ⊕ "), (" NAND ", " NAND "), (" NOR ", " NOR ")]

/-- Apply the substitution table in order. -/
def applyReplacements (l : List Char) : List Char :=
  tokenizeReplacements.foldl (fun acc p => replaceAll acc p.1.data p.2.data) l

/-- The single-symbol alternatives of the token regex
`[A-Za-z0-9]+|[¬~!∧∨→↔⊕\(\)]`. -/
def symChars : List Char := ['¬', '~', '!', '∧', '∨', '→', '↔', '⊕', '(', ')']

/-- `re.findall(r'[A-Za-z0-9]+|[¬~!∧∨→↔⊕\(\)]', ·)`: maximal alphanumeric
runs become one token, the listed symbols become singleton tokens, and every
other character is skipped.  Fuelled by the length. -/
def scanTokensF : Nat → List Char → List String
  | 0, _ => []
  | _ + 1, [] => []
  | f + 1, c :: cs =>
    if isAlnumChar c then
      String.mk (c :: cs.takeWhile isAlnumChar) :: scanTokensF f (cs.dropWhile isAlnumChar)
    else if symChars.contains c then
      String.mk [c] :: scanTokensF f cs
    else
      scanTokensF f cs

/-- The token regex scan. -/
def scanTokens (l : List Char) : List String := scanTokensF l.length l

/-- `LogicParser._tokenize`. -/
def tokenize (s : String) : List String :=
  (scanTokens (applyReplacements (s.data.map pyUpperChar))).filter
    (fun t => !(stripChars t.data).isEmpty)

/-- `LogicParser._is_variable`: a single uppercase (ASCII) letter. -/
def is_variable (t : String) : Bool :=
  match t.data with
  | [c] => isAlphaChar c && isUpperChar c
  | _ => false

/-- `LogicParser._is_operator` (note: parentheses count as operators). -/
def is_operator (t : String) : Bool :=
  operators.contains (pyUpperStr t) || t == "(" || t == ")"

/-- `LogicParser._check_balanced_parentheses` (stack of `'('`). -/
def balStackAux : List Char → List Char → Bool
  | [], stack => stack.isEmpty
  | c :: cs, stack =>
    if c == '(' then balStackAux cs ('(' :: stack)
    else if c == ')' then
      match stack with
      | [] => false
      | _ :: rest => balStackAux cs rest
    else balStackAux cs stack

/-- `LogicParser._check_balanced_parentheses`. -/
def check_balanced_parentheses (s : String) : Bool := balStackAux s.data []

/-- The allowed-character class of `_find_invalid_characters`
(`[^A-Za-z0-9\s¬~!∧&∨|→↔⊕<>=\-\^\(\)]` complemented). -/
def allowedChar (c : Char) : Bool :=
  isAlnumChar c || isWsChar c ||
    ['¬', '~', '!', '∧', '&', '∨', '|', '→', '↔', '⊕', '<', '>', '=', '-', '^',
      '(', ')'].contains c

/-- `LogicParser._find_invalid_characters` (unique offending characters). -/
def find_invalid_characters (s : String) : List Char :=
  dedupChars (s.data.filter (fun c => !allowedChar c))

/-- The unary tokens `['¬', '~', '!']`. -/
def unaryTokens : List String := ["¬", "~", "!"]

/-- Loop body of `_check_operator_placement` (`i` is the enumeration index,
`n` the token count). -/
def check_operator_placement_go (n : Nat) : List String → Nat → Option String
  | [], _ => none
  | t :: ts, i =>
    if is_operator t then
      if !(unaryTokens.contains t) && (i == 0 || i == n - 1) then
        some ("Binary operator '" ++ t ++ "' at invalid position")
      else if unaryTokens.contains t && i == n - 1 then
        some ("Unary operator '" ++ t ++ "' at end of expression")
      else check_operator_placement_go n ts (i + 1)
    else check_operator_placement_go n ts (i + 1)

/-- `LogicParser._check_operator_placement`. -/
def check_operator_placement (s : String) : Option String :=
  let tokens := tokenize s
  check_operator_placement_go tokens.length tokens 0

/-- `str.isdigit` (nonempty, all digits). -/
def isDigitStr (t : String) : Bool := !t.data.isEmpty && t.data.all isDigitChar

/-- The constant literals accepted by `_check_variable_names`. -/
def constantLiterals : List String := ["0", "1", "true", "false", "TRUE", "FALSE"]

/-- Loop body of `_check_variable_names`.  Note the guard
`_is_variable(token) and len(token) > 1`: `_is_variable` already requires
`len(token) == 1`, so the guard can never hold. -/
def check_variable_names_go : List String → Option String
  | [] => none
  | t :: ts =>
    if is_variable t && decide (1 < t.length) && !isDigitStr t then
      if !(operators.contains t) && !(constantLiterals.contains t) then
        some ("Invalid variable/operator name: '" ++ t ++ "'")
      else check_variable_names_go ts
    else check_variable_names_go ts

/-- `LogicParser._check_variable_names`. -/
def check_variable_names (s : String) : Option String :=
  check_variable_names_go (tokenize s)

/-- `LogicParser.validate_expression`, returning the `(is_valid, message)`
tuple.  The checks run, in source order, on the stripped text. -/
def validate_expression (expression : String) : Bool × String :=
  if expression.data.isEmpty || (stripChars expression.data).isEmpty then
    (false, "Expression cannot be empty")
  else
    let expr : String := pyStrip expression
    if !check_balanced_parentheses expr then (false, "Unbalanced parentheses")
    else if !(find_invalid_characters expr).isEmpty then
      (false, "Invalid characters: " ++
        String.intercalate ", " ((find_invalid_characters expr).map (fun c => String.mk [c])))
    else
      match check_operator_placement expr with
      | some msg => (false, msg)
      | none =>
        match check_variable_names expr with
        | some msg => (false, msg)
        | none => (true, "Valid expression")

/-- `LogicParser.extract_variables` as the list of (uppercased) variable
tokens in occurrence order; the source returns the corresponding `set`, so
only membership in this list is meaningful. -/
def extract_variables (s : String) : List String :=
  ((tokenize s).filter is_variable).map pyUpperStr

/-- Pop the operator stack onto the output until a `'('` is found; the
`'('` itself is discarded.  `none` models the `IndexError` the source
raises when it pops an empty stack. -/
def popRP : List String → List String → Option (List String × List String)
  | [], _ => none
  | s :: ss, out => if s == "(" then some (out, ss) else popRP ss (out ++ [s])

/-- Pop stacked operators with precedence ≥ the incoming token's (stopping
at `'('`) onto the output. -/
def popOps (t : String) : List String → List String → List String × List String
  | [], out => (out, [])
  | s :: ss, out =>
    if !(s == "(") && prec t ≤ prec s then popOps t ss (out ++ [s])
    else (out, s :: ss)

/-- The shunting-yard loop of `to_postfix` (`stack` has its top at the
head; the final flush appends the stack, top first, to the output). -/
def syAux : List String → List String → List String → Option (List String)
  | [], out, stack => some (out ++ stack)
  | t :: ts, out, stack =>
    if is_variable t || t == "0" || t == "1" then syAux ts (out ++ [t]) stack
    else if t == "(" then syAux ts out (t :: stack)
    else if t == ")" then
      match popRP stack out with
      | none => none
      | some (out₁, stack₁) => syAux ts out₁ stack₁
    else
      let p := popOps t stack out
      syAux ts p.1 (t :: p.2)

/-- `LogicParser.to_postfix`. -/
def toPostfix (s : String) : Option (List String) := syAux (tokenize s) [] []

/-- The evaluation-time failures of `evaluate_expression` /
`_apply_operator` (each is a `raise ValueError` in the source). -/
inductive EvalErr where
  | missingOperandNeg : EvalErr
  | missingOperands : String → EvalErr
  | tooManyOperands : EvalErr
  | unknownOperator : String → EvalErr
deriving DecidableEq

/-- `LogicParser._apply_operator`. -/
def apply_operator (l r : Bool) (op : String) : Except EvalErr Bool :=
  let o := pyUpperStr op
  if ["∧", "&", "&&", "AND"].contains o then Except.ok (l && r)
  else if ["∨", "|", "||", "OR"].contains o then Except.ok (l || r)
  else if ["→", "->", "=>", "IMP"].contains o then Except.ok (!l || r)
  else if ["↔", "<->", "<=>", "XNOR"].contains o then Except.ok (l == r)
  else if ["⊕", "^", "XOR"].contains o then Except.ok (l != r)
  else if o == "NAND" then Except.ok (!(l && r))
  else if o == "NOR" then Except.ok (!(l || r))
  else Except.error (EvalErr.unknownOperator o)

/-- The operand-stack loop of `evaluate_expression` (an assignment is a
partial map `String → Option Bool`, modelling the Python dict; a missing
variable reads as `false` via `dict.get(name, False)`). -/
def evalPostfix (asn : String → Option Bool) : List String → List Bool → Except EvalErr Bool
  | [], stack =>
    match stack with
    | [b] => Except.ok b
    | _ => Except.error EvalErr.tooManyOperands
  | t :: ts, stack =>
    if is_variable t || t == "0" || t == "1" then
      if t == "0" || t == "1" then evalPostfix asn ts ((t == "1") :: stack)
      else evalPostfix asn ts ((asn (pyUpperStr t)).getD false :: stack)
    else if unaryTokens.contains t then
      match stack with
      | [] => Except.error EvalErr.missingOperandNeg
      | b :: rest => evalPostfix asn ts ((!b) :: rest)
    else
      match stack with
      | r :: l :: rest =>
        match apply_operator l r t with
        | Except.ok v => evalPostfix asn ts (v :: rest)
        | Except.error e => Except.error e
      | _ => Except.error (EvalErr.missingOperands t)

/-- `LogicParser.evaluate_expression`: `none` is the source's `IndexError`
inside `toPostfix`, `Except.error` its evaluation-time `ValueError`s. -/
def evaluate_expression (s : String) (asn : String → Option Bool) :
    Option (Except EvalErr Bool) :=
  (toPostfix s).map (fun pf => evalPostfix asn pf [])

/-! ### `TruthTableGenerator` (truth_table.py) -/

/-- `sorted(self.parser.extract_variables(expression))`. -/
def sorted_variables (s : String) : List String :=
  sortStrings (dedupStr (extract_variables s))

/-- `itertools.product([False, True], repeat=n)`: all `n`-tuples in binary
counting order, first component most significant, `False` before `True`. -/
def boolCombos : Nat → List (List Bool)
  | 0 => [[]]
  | n + 1 => (boolCombos n).map (false :: ·) ++ (boolCombos n).map (true :: ·)

/-- A table row: the assignment (as the `dict(zip(variables, combo))`
association list) together with the `result` entry. -/
abbrev TTRow := List (String × Bool) × Bool

/-- The per-combination loop of `generate_truth_table`: evaluate under
`dict(zip(vars, combo))` and collect rows; any evaluation exception is
re-raised (`none`). -/
def buildRows (s : String) (vars : List String) : List (List Bool) → Option (List TTRow)
  | [] => some []
  | combo :: rest =>
    match evaluate_expression s (fun v => (vars.zip combo).lookup v) with
    | some (Except.ok b) => (buildRows s vars rest).map (fun rs => (vars.zip combo, b) :: rs)
    | _ => none

/-- `TruthTableGenerator.generate_truth_table`: validate, extract and sort
the variables, then either the constant-only single row or one row per
combination.  `none` models the raised `ValueError`s. -/
def generate_truth_table (s : String) : Option (List TTRow × List String) :=
  if !(validate_expression s).1 then none
  else
    let vars := sorted_variables s
    if vars.isEmpty then
      match evaluate_expression s (fun _ => none) with
      | some (Except.ok b) => some ([([], b)], [])
      | _ => none
    else (buildRows s vars (boolCombos vars.length)).map (fun rows => (rows, vars))

/-- The summary dict of `get_truth_table_summary`. -/
structure TTSummary where
  total_rows : Nat
  true_count : Nat
  false_count : Nat
  is_tautology : Bool
  is_contradiction : Bool
  is_contingency : Bool
deriving DecidableEq

/-- `TruthTableGenerator.get_truth_table_summary` (`none` is the empty dict
returned for an empty table). -/
def get_truth_table_summary (rows : List TTRow) : Option TTSummary :=
  if rows.isEmpty then none
  else
    let tc := (rows.filter (fun r => r.2)).length
    let fc := rows.length - tc
    some { total_rows := rows.length, true_count := tc, false_count := fc,
           is_tautology := tc == rows.length, is_contradiction := fc == rows.length,
           is_contingency := decide (0 < tc) && decide (0 < fc) }

/-- `TruthTableGenerator.find_minterms` (row indices with a true result). -/
def find_minterms (rows : List TTRow) : List Nat :=
  (List.range rows.length).filter (fun i => ((rows.get? i).map (fun r => r.2)).getD false)

/-! ### `ExpressionSimplifier` (simplifier.py) -/

/-- `self.rules`, in dict insertion order. -/
def rewrite_rules : List (String × String) :=
  [("A ∧ 1", "A"), ("A ∨ 0", "A"),
   ("A ∧ 0", "0"), ("A ∨ 1", "1"),
   ("A ∧ A", "A"), ("A ∨ A", "A"),
   ("¬¬A", "A"),
   ("A ∧ ¬A", "0"), ("A ∨ ¬A", "1"),
   ("A ∧ B", "B ∧ A"), ("A ∨ B", "B ∨ A"),
   ("(A ∧ B) ∧ C", "A ∧ (B ∧ C)"), ("(A ∨ B) ∨ C", "A ∨ (B ∨ C)"),
   ("A ∧ (B ∨ C)", "(A ∧ B) ∨ (A ∧ C)"), ("A ∨ (B ∧ C)", "(A ∨ B) ∧ (A ∨ C)"),
   ("¬(A ∧ B)", "¬A ∨ ¬B"), ("¬(A ∨ B)", "¬A ∧ ¬B"),
   ("A ∧ (A ∨ B)", "A"), ("A ∨ (A ∧ B)", "A"),
   ("A → B", "¬A ∨ B"),
   ("A ↔ B", "(A → B) ∧ (B → A)"),
   ("A ⊕ B", "(A ∧ ¬B) ∨ (¬A ∧ B)")]

/-- The ordered substitution table of `_normalize_expression`. -/
def normalizeReplacements : List (String × String) :=
  [("&&", "∧"), (" AND ", " ∧ "),
   ("||", "∨"), (" OR ", " ∨ "),
   ("->", "→"), ("=>", "→"),
   ("<->", "↔"), ("<=>", "↔"),
   ("^", "⊕"), (" XOR ", " ⊕ "),
   ("!", "¬"), ("~", "¬")]

/-- The operators spaced out by `_normalize_expression`. -/
def spacingOps : List Char := ['∧', '∨', '→', '↔', '⊕', '¬']

/-- `ExpressionSimplifier._normalize_expression`. -/
def normalize_expression (s : String) : String :=
  let e := s.data.map pyUpperChar
  let e := normalizeReplacements.foldl (fun acc p => replaceAll acc p.1.data p.2.data) e
  let e := spacingOps.foldl (fun acc op => replaceAll acc [op] [' ', op, ' ']) e
  ⟨stripChars (squeezeWs e)⟩

/-- `ExpressionSimplifier._apply_variable_rule`: plain substring
replacement (the placeholders are not unified, a documented limitation). -/
def apply_variable_rule (e pat rep : String) : String :=
  if containsSub e.data pat.data then ⟨replaceAll e.data pat.data rep.data⟩ else e

/-- `ExpressionSimplifier._apply_rule`. -/
def apply_rule (e pat rep : String) : String :=
  if e == pat then rep
  else if pat.data.contains 'A' || pat.data.contains 'B' || pat.data.contains 'C' then
    apply_variable_rule e pat rep
  else e

/-- The character class `[A-Z01]` of the single-token parenthesis regex. -/
def isSingleTok (c : Char) : Bool := (65 ≤ c.toNat && c.toNat ≤ 90) || c == '0' || c == '1'

/-- `re.sub(r'\(([A-Z01])\)', r'\1', ·)`, fuelled by the length. -/
def removeSingleParensF : Nat → List Char → List Char
  | 0, l => l
  | _ + 1, [] => []
  | f + 1, c :: cs =>
    match c, cs with
    | '(', c₂ :: ')' :: rest =>
      if isSingleTok c₂ then c₂ :: removeSingleParensF f rest
      else '(' :: removeSingleParensF f cs
    | _, _ => c :: removeSingleParensF f cs

/-- `re.sub(r'\(([A-Z01])\)', r'\1', ·)`. -/
def removeSingleParens (l : List Char) : List Char := removeSingleParensF l.length l

/-- `ExpressionSimplifier._is_balanced` (counter, failing on a negative). -/
def isBalAux : List Char → Nat → Bool
  | [], n => n == 0
  | c :: cs, n =>
    if c == '(' then isBalAux cs (n + 1)
    else if c == ')' then (if n == 0 then false else isBalAux cs (n - 1))
    else isBalAux cs n

/-- `ExpressionSimplifier._is_balanced`. -/
def is_balanced (l : List Char) : Bool := isBalAux l 0

/-- `ExpressionSimplifier._remove_redundant_parentheses`. -/
def remove_redundant_parentheses (s : String) : String :=
  let e := removeSingleParens s.data
  if e.head? == some '(' && e.getLast? == some ')' then
    let inner := (e.drop 1).dropLast
    if is_balanced inner then ⟨inner⟩ else ⟨e⟩
  else ⟨e⟩

/-- The binary operators re-spaced by `_cleanup_expression` (no `¬`). -/
def cleanupOps : List Char := ['∧', '∨', '→', '↔', '⊕']

/-- `ExpressionSimplifier._cleanup_expression`. -/
def cleanup_expression (s : String) : String :=
  let e := stripChars (squeezeWs s.data)
  let e := cleanupOps.foldl (fun acc op => replaceAll acc [' ', op, ' '] [op]) e
  let e := cleanupOps.foldl (fun acc op => replaceAll acc [op] [' ', op, ' ']) e
  ⟨stripChars (squeezeWs e)⟩

/-- The inner `for pattern, replacement in self.rules.items()` scan: the
first rule (in table order) that changes the expression, with the changed
expression; `none` if no rule fires. -/
def tryRules : List (String × String) → String → Option (String × String × String)
  | [], _ => none
  | (pat, rep) :: rest, e =>
    let e₁ := apply_rule e pat rep
    if e₁ != e then some (pat, rep, e₁) else tryRules rest e

/-- One iteration of the `while changed` loop body: try the rules (with its
trace message), then strip redundant parentheses (with its trace message);
the returned flag is the body's `changed`. -/
def iterOnce (e : String) : String × List String × Bool :=
  match tryRules rewrite_rules e with
  | some (pat, rep, e₁) =>
    let st₁ := ["Applied " ++ pat ++ " → " ++ rep ++ ": " ++ e₁]
    let e₂ := remove_redundant_parentheses e₁
    if e₂ != e₁ then (e₂, st₁ ++ ["Removed redundant parentheses: " ++ e₂], true)
    else (e₁, st₁, true)
  | none =>
    let e₂ := remove_redundant_parentheses e
    if e₂ != e then (e₂, ["Removed redundant parentheses: " ++ e₂], true)
    else (e, [], false)

/-- The `while changed and iteration < max_iterations` loop.  The fuel is
`max_iterations - iteration` (initially 20); the returned `Nat` is the
number of iterations executed. -/
def simplifyLoop : Nat → String → List String → String × List String × Nat
  | 0, e, st => (e, st, 0)
  | f + 1, e, st =>
    match iterOnce e with
    | (e₁, st₁, true) =>
      let r := simplifyLoop f e₁ (st ++ st₁)
      (r.1, r.2.1, r.2.2 + 1)
    | (e₁, st₁, false) => (e₁, st ++ st₁, 1)

/-- The loop of `simplify` on input `s`: normalized start, the `Original`
trace entry, fuel 20. -/
def simplifyLoopResult (s : String) : String × List String × Nat :=
  let current := normalize_expression s
  simplifyLoop 20 current ["Original: " ++ current]

/-- `ExpressionSimplifier.simplify`: the rewrite loop followed by the final
cleanup pass, returning `(simplified_expression, steps)`. -/
def simplify (s : String) : String × List String :=
  let r := simplifyLoopResult s
  let final := cleanup_expression r.1
  if final != r.1 then (final, r.2.1 ++ ["Final cleanup: " ++ final]) else (r.1, r.2.1)

/-! ### Helper lemmas -/

/-- Postfix evaluation only reads the assignment through
`dict.get(token.upper(), False)` at variable tokens of the sequence. -/
theorem evalPostfix_congr (a₁ a₂ : String → Option Bool) :
    ∀ pf : List String,
      (∀ t ∈ pf, is_variable t = true →
        (a₁ (pyUpperStr t)).getD false = (a₂ (pyUpperStr t)).getD false) →
      ∀ stack, evalPostfix a₁ pf stack = evalPostfix a₂ pf stack := by
  intro pf
  induction pf with
  | nil => intro _ stack; rfl
  | cons t ts ih =>
    intro h stack
    have hts : ∀ t' ∈ ts, is_variable t' = true →
        (a₁ (pyUpperStr t')).getD false = (a₂ (pyUpperStr t')).getD false := by
      intro t' ht' hv
      exact h t' (List.mem_cons_of_mem _ ht') hv
    simp only [evalPostfix]
    split_ifs with h₁ h₂ h₃
    · exact ih hts _
    · have hv : is_variable t = true := by
        rcases (by simpa using h₁ : (is_variable t = true ∨ t = "0") ∨ t = "1") with
          (hv | hv) | hv
        · exact hv
        · exact absurd (by simp [hv]) h₂
        · exact absurd (by simp [hv]) h₂
      rw [h t (List.mem_cons_self t ts) hv]
      exact ih hts _
    · cases stack with
      | nil => rfl
      | cons b rest =>
        dsimp only
        exact ih hts _
    · cases stack with
      | nil => rfl
      | cons r rest =>
        cases rest with
        | nil => rfl
        | cons l rest₂ =>
          dsimp only
          cases apply_operator l r t with
          | ok v => exact ih hts _
          | error e => rfl

/-- Elements moved by `popRP` come from the output or the stack. -/
theorem popRP_mem :
    ∀ stack out out₁ stack₁, popRP stack out = some (out₁, stack₁) →
      ∀ x, x ∈ out₁ ∨ x ∈ stack₁ → x ∈ out ∨ x ∈ stack := by
  intro stack
  induction stack with
  | nil => intro out out₁ stack₁ h; cases h
  | cons s ss ih =>
    intro out out₁ stack₁ h x hx
    by_cases hs : s == "("
    · simp only [popRP, hs, if_pos] at h
      cases h
      rcases hx with hx | hx
      · exact Or.inl hx
      · exact Or.inr (List.mem_cons_of_mem _ hx)
    · simp only [popRP, hs, if_neg] at h
      rcases ih _ _ _ h x hx with hx' | hx'
      · rcases List.mem_append.mp hx' with hx'' | hx''
        · exact Or.inl hx''
        · simp only [List.mem_singleton] at hx''
          exact Or.inr (by simp [hx''])
      · exact Or.inr (List.mem_cons_of_mem _ hx')

/-- Elements moved by `popOps` come from the output or the stack. -/
theorem popOps_mem :
    ∀ stack out t x,
      x ∈ (popOps t stack out).1 ∨ x ∈ (popOps t stack out).2 → x ∈ out ∨ x ∈ stack := by
  intro stack
  induction stack with
  | nil =>
    intro out t x hx
    simp only [popOps] at hx
    rcases hx with hx | hx
    · exact Or.inl hx
    · cases hx
  | cons s ss ih =>
    intro out t x hx
    simp only [popOps] at hx
    split_ifs at hx with hc
    · rcases ih _ _ _ hx with hx' | hx'
      · rcases List.mem_append.mp hx' with hx'' | hx''
        · exact Or.inl hx''
        · simp only [List.mem_singleton] at hx''
          exact Or.inr (by simp [hx''])
      · exact Or.inr (List.mem_cons_of_mem _ hx')
    · rcases hx with hx | hx
      · exact Or.inl hx
      · exact Or.inr hx

/-- Every token of the postfix sequence occurs in the input token list
(or came from the initial output/stack). -/
theorem syAux_mem :
    ∀ ts out stack pf, syAux ts out stack = some pf →
      ∀ x ∈ pf, x ∈ out ∨ x ∈ stack ∨ x ∈ ts := by
  intro ts
  induction ts with
  | nil =>
    intro out stack pf h x hx
    simp only [syAux] at h
    cases h
    rcases List.mem_append.mp hx with hx' | hx'
    · exact Or.inl hx'
    · exact Or.inr (Or.inl hx')
  | cons t ts ih =>
    intro out stack pf h x hx
    simp only [syAux] at h
    split_ifs at h with h₁ h₂ h₃
    · rcases ih _ _ _ h x hx with hx' | hx' | hx'
      · rcases List.mem_append.mp hx' with hx'' | hx''
        · exact Or.inl hx''
        · simp only [List.mem_singleton] at hx''
          exact Or.inr (Or.inr (by simp [hx'']))
      · exact Or.inr (Or.inl hx')
      · exact Or.inr (Or.inr (List.mem_cons_of_mem _ hx'))
    · rcases ih _ _ _ h x hx with hx' | hx' | hx'
      · exact Or.inl hx'
      · rcases List.mem_cons.mp hx' with hx'' | hx''
        · exact Or.inr (Or.inr (by simp [hx'', eq_of_beq h₂]))
        · exact Or.inr (Or.inl hx'')
      · exact Or.inr (Or.inr (List.mem_cons_of_mem _ hx'))
    · cases hrp : popRP stack out with
      | none => rw [hrp] at h; cases h
      | some p =>
        rw [hrp] at h
        rcases ih _ _ _ h x hx with hx' | hx' | hx'
        · rcases popRP_mem _ _ _ _ hrp x (Or.inl hx') with hx'' | hx''
          · exact Or.inl hx''
          · exact Or.inr (Or.inl hx'')
        · rcases popRP_mem _ _ _ _ hrp x (Or.inr hx') with hx'' | hx''
          · exact Or.inl hx''
          · exact Or.inr (Or.inl hx'')
        · exact Or.inr (Or.inr (List.mem_cons_of_mem _ hx'))
    · rcases ih _ _ _ h x hx with hx' | hx' | hx'
      · rcases popOps_mem _ _ _ _ (Or.inl hx') with hx'' | hx''
        · exact Or.inl hx''
        · exact Or.inr (Or.inl hx'')
      · rcases List.mem_cons.mp hx' with hx'' | hx''
        · exact Or.inr (Or.inr (by simp [hx'']))
        · rcases popOps_mem _ _ _ _ (Or.inr hx'') with hx₃ | hx₃
          · exact Or.inl hx₃
          · exact Or.inr (Or.inl hx₃)
      · exact Or.inr (Or.inr (List.mem_cons_of_mem _ hx'))

/-- `evaluate_expression` reads an assignment only through the
default-false lookups of the variables extracted from the text: two
assignments whose default-false lookups agree on `extract_variables s`
produce identical outcomes (value or error). -/
theorem evaluate_congr (s : String) (a₁ a₂ : String → Option Bool)
    (h : ∀ v ∈ extract_variables s, (a₁ v).getD false = (a₂ v).getD false) :
    evaluate_expression s a₁ = evaluate_expression s a₂ := by
  unfold evaluate_expression
  cases hpf : toPostfix s with
  | none => rfl
  | some pf =>
    have heq : evalPostfix a₁ pf [] = evalPostfix a₂ pf [] := by
      apply evalPostfix_congr
      intro t ht hv
      apply h
      have htok : t ∈ tokenize s := by
        rcases syAux_mem _ _ _ _ hpf t ht with h' | h' | h'
        · cases h'
        · cases h'
        · exact h'
      exact List.mem_map_of_mem _ (List.mem_filter.mpr ⟨htok, hv⟩)
    simp only [Option.map_some', heq]

/-- `itertools.product([False, True], repeat=n)` has `2 ^ n` elements. -/
theorem boolCombos_length (n : Nat) : (boolCombos n).length = 2 ^ n := by
  induction n with
  | zero => rfl
  | succ n ih => simp [boolCombos, ih, pow_succ]; omega

/-- A successful `buildRows` produces one row per combination. -/
theorem buildRows_length (s : String) (vars : List String) :
    ∀ combos rows, buildRows s vars combos = some rows → rows.length = combos.length := by
  intro combos
  induction combos with
  | nil =>
    intro rows h
    simp only [buildRows] at h
    cases h
    rfl
  | cons c cs ih =>
    intro rows h
    simp only [buildRows] at h
    split at h
    · rcases Option.map_eq_some'.mp h with ⟨rs, hrs, hrows⟩
      subst hrows
      simp [ih _ hrs]
    · cases h

/-- If an iteration of the simplifier's loop body reports no change, the
expression really is unchanged. -/
theorem iterOnce_fix (e : String) : (iterOnce e).2.2 = false → (iterOnce e).1 = e := by
  unfold iterOnce
  cases htr : tryRules rewrite_rules e with
  | some p =>
    obtain ⟨pat, rep, e₁⟩ := p
    dsimp only
    split_ifs <;> intro h <;> cases h
  | none =>
    dsimp only
    split_ifs with h
    · intro h'; cases h'
    · intro _; rfl

/-- The loop executes at most `fuel` iterations, and when it stops short of
the fuel the final expression is a fixpoint of the loop body. -/
theorem simplifyLoop_spec :
    ∀ fuel e st, (simplifyLoop fuel e st).2.2 ≤ fuel ∧
      ((simplifyLoop fuel e st).2.2 = fuel ∨
        (iterOnce (simplifyLoop fuel e st).1).2.2 = false) := by
  intro fuel
  induction fuel with
  | zero => intro e st; exact ⟨Nat.le_refl 0, Or.inl rfl⟩
  | succ f ih =>
    intro e st
    simp only [simplifyLoop]
    cases hit : iterOnce e with
    | mk e₁ p =>
      cases p with
      | mk st₁ ch =>
        cases ch
        · dsimp only
          constructor
          · omega
          · right
            have he : e₁ = e := by
              have := iterOnce_fix e (by rw [hit])
              rw [hit] at this
              exact this
            rw [he, hit]
        · dsimp only
          rcases ih e₁ (st ++ st₁) with ⟨h₁, h₂⟩
          constructor
          · omega
          · rcases h₂ with h₂ | h₂
            · exact Or.inl (by omega)
            · exact Or.inr h₂

/-! ### Parenthesis bookkeeping for the shunting-yard safety proof -/

/-- Is the character a parenthesis? -/
def isParenChar (c : Char) : Bool := c == '(' || c == ')'

/-- The subsequence of parenthesis characters. -/
def parenSeq (l : List Char) : List Char := l.filter isParenChar

/-- Prefix-nonnegativity of the parenthesis counter over characters: with
`n` parentheses already open, every `')'` finds a matching `'('`. -/
def parensNonneg : List Char → Nat → Bool
  | [], _ => true
  | c :: cs, n =>
    if c == '(' then parensNonneg cs (n + 1)
    else if c == ')' then decide (0 < n) && parensNonneg cs (n - 1)
    else parensNonneg cs n

/-- Is the token a parenthesis token? -/
def isParenTok (t : String) : Bool := t == "(" || t == ")"

/-- Prefix-nonnegativity of the parenthesis counter over tokens. -/
def tokParensNonneg : List String → Nat → Bool
  | [], _ => true
  | t :: ts, n =>
    if t == "(" then tokParensNonneg ts (n + 1)
    else if t == ")" then decide (0 < n) && tokParensNonneg ts (n - 1)
    else tokParensNonneg ts n

theorem isParenChar_iff {c : Char} : isParenChar c = true ↔ c = '(' ∨ c = ')' := by
  simp [isParenChar]

theorem isParenChar_eq_false_of_toNat {c : Char} (h40 : c.toNat ≠ 40) (h41 : c.toNat ≠ 41) :
    isParenChar c = false := by
  rw [Bool.eq_false_iff]
  intro hc
  rcases isParenChar_iff.mp hc with h | h <;> rw [h] at h40 h41
  · exact h40 rfl
  · exact h41 rfl

theorem toNat_of_isParenChar {c : Char} (h : isParenChar c = true) :
    c.toNat = 40 ∨ c.toNat = 41 := by
  rcases isParenChar_iff.mp h with h' | h' <;> rw [h']
  · exact Or.inl rfl
  · exact Or.inr rfl

theorem isWsChar_not_paren {c : Char} (h : isWsChar c = true) : isParenChar c = false := by
  have : ((((c.toNat = 32 ∨ c.toNat = 9) ∨ c.toNat = 10) ∨ c.toNat = 11) ∨ c.toNat = 12) ∨
      c.toNat = 13 := by simpa [isWsChar] using h
  exact isParenChar_eq_false_of_toNat (by omega) (by omega)

theorem isAlnumChar_not_paren {c : Char} (h : isAlnumChar c = true) : isParenChar c = false := by
  have : ((48 ≤ c.toNat ∧ c.toNat ≤ 57) ∨ (65 ≤ c.toNat ∧ c.toNat ≤ 90)) ∨
      (97 ≤ c.toNat ∧ c.toNat ≤ 122) := by simpa [isAlnumChar] using h
  exact isParenChar_eq_false_of_toNat (by omega) (by omega)

theorem toNat_pyUpperChar_of_lower {c : Char} (h1 : 97 ≤ c.toNat) (h2 : c.toNat ≤ 122) :
    (Char.ofNat (c.toNat - 32)).toNat = c.toNat - 32 := by
  have hv : (c.toNat - 32).isValidChar := Or.inl (by omega)
  rw [Char.ofNat, dif_pos hv]
  simp [Char.ofNatAux, Char.toNat, UInt32.toNat, BitVec.toNat_ofNatLt]

theorem isParenChar_pyUpperChar (c : Char) : isParenChar (pyUpperChar c) = isParenChar c := by
  unfold pyUpperChar
  split_ifs with h
  · have h' : 97 ≤ c.toNat ∧ c.toNat ≤ 122 := by simpa using h
    have ht : (Char.ofNat (c.toNat - 32)).toNat = c.toNat - 32 :=
      toNat_pyUpperChar_of_lower h'.1 h'.2
    rw [isParenChar_eq_false_of_toNat (c := Char.ofNat (c.toNat - 32)) (by omega) (by omega),
      isParenChar_eq_false_of_toNat (by omega) (by omega)]
  · rfl

theorem pyUpperChar_of_paren {c : Char} (h : isParenChar c = true) : pyUpperChar c = c := by
  unfold pyUpperChar
  rcases toNat_of_isParenChar h with h' | h' <;> rw [if_neg (by simp [h'])]

theorem parenSeq_map_pyUpper (l : List Char) : parenSeq (l.map pyUpperChar) = parenSeq l := by
  induction l with
  | nil => rfl
  | cons c cs ih =>
    simp only [List.map_cons, parenSeq, List.filter_cons] at ih ⊢
    rw [isParenChar_pyUpperChar]
    cases hc : isParenChar c with
    | false => simpa using ih
    | true =>
      rw [pyUpperChar_of_paren hc]
      simpa using ih

theorem isPre_eq_append : ∀ pat l : List Char, isPre pat l = true → l = pat ++ l.drop pat.length := by
  intro pat
  induction pat with
  | nil => intro l _; simp
  | cons p ps ih =>
    intro l h
    cases l with
    | nil => cases h
    | cons c cs =>
      simp only [isPre, Bool.and_eq_true] at h
      obtain ⟨hpc, hrest⟩ := h
      have hcs := ih cs hrest
      calc c :: cs = c :: (ps ++ cs.drop ps.length) := by rw [← hcs]
        _ = (p :: ps) ++ (c :: cs).drop (p :: ps).length := by
            rw [eq_of_beq hpc]
            simp

theorem parenSeq_replaceAllF (pat rep : List Char)
    (hpat : parenSeq pat = []) (hrep : parenSeq rep = []) :
    ∀ f l, parenSeq (replaceAllF f l pat rep) = parenSeq l := by
  intro f
  induction f with
  | zero => intro l; rfl
  | succ f ih =>
    intro l
    cases l with
    | nil => rfl
    | cons c cs =>
      simp only [replaceAllF]
      split_ifs with hc
      · have hpre : isPre pat (c :: cs) = true := by
          simp only [Bool.and_eq_true] at hc
          exact hc.2
        have hsplit := isPre_eq_append pat (c :: cs) hpre
        calc parenSeq (rep ++ replaceAllF f ((c :: cs).drop pat.length) pat rep)
            = parenSeq rep ++ parenSeq (replaceAllF f ((c :: cs).drop pat.length) pat rep) := by
              simp [parenSeq]
          _ = parenSeq ((c :: cs).drop pat.length) := by rw [hrep, ih]; rfl
          _ = parenSeq pat ++ parenSeq ((c :: cs).drop pat.length) := by rw [hpat]; rfl
          _ = parenSeq (c :: cs) := by
              conv_rhs => rw [hsplit]
              simp [parenSeq]
      · simp only [parenSeq, List.filter_cons]
        have := ih cs
        simp only [parenSeq] at this
        rw [this]

theorem parenSeq_foldl_replace :
    ∀ (ps : List (String × String)) (l : List Char),
      (∀ p ∈ ps, parenSeq p.1.data = [] ∧ parenSeq p.2.data = []) →
      parenSeq (ps.foldl (fun acc p => replaceAll acc p.1.data p.2.data) l) = parenSeq l := by
  intro ps
  induction ps with
  | nil => intro l _; rfl
  | cons p ps ih =>
    intro l h
    simp only [List.foldl_cons]
    rw [ih _ (fun q hq => h q (List.mem_cons_of_mem _ hq))]
    exact parenSeq_replaceAllF _ _ (h p (List.mem_cons_self _ _)).1
      (h p (List.mem_cons_self _ _)).2 _ _

theorem parenSeq_applyReplacements (l : List Char) :
    parenSeq (applyReplacements l) = parenSeq l := by
  unfold applyReplacements
  exact parenSeq_foldl_replace _ _ (by decide)

theorem parenSeq_dropWhile_ws (l : List Char) :
    parenSeq (l.dropWhile isWsChar) = parenSeq l := by
  induction l with
  | nil => rfl
  | cons c cs ih =>
    cases hc : isWsChar c with
    | false => simp [List.dropWhile_cons, hc]
    | true =>
      simp only [List.dropWhile_cons, hc, if_true]
      rw [ih]
      simp [parenSeq, List.filter_cons, isWsChar_not_paren hc]

theorem parenSeq_reverse (l : List Char) : parenSeq l.reverse = (parenSeq l).reverse := by
  simp [parenSeq, List.filter_reverse]

theorem parenSeq_stripChars (l : List Char) : parenSeq (stripChars l) = parenSeq l := by
  unfold stripChars
  rw [parenSeq_reverse, parenSeq_dropWhile_ws, parenSeq_reverse, List.reverse_reverse,
    parenSeq_dropWhile_ws]

theorem parensNonneg_parenSeq : ∀ (l : List Char) (n : Nat),
    parensNonneg (parenSeq l) n = parensNonneg l n := by
  intro l
  induction l with
  | nil => intro n; rfl
  | cons c cs ih =>
    intro n
    cases hc : isParenChar c with
    | false =>
      have hne : ¬c = '(' ∧ ¬c = ')' := by simpa [isParenChar] using hc
      have h1 : (c == '(') = false := beq_eq_false_iff_ne.mpr hne.1
      have h2 : (c == ')') = false := beq_eq_false_iff_ne.mpr hne.2
      simp only [parenSeq, List.filter_cons, hc, Bool.false_eq_true, if_false]
      simp only [parensNonneg, h1, h2, Bool.false_eq_true, if_false]
      exact ih n
    | true =>
      simp only [parenSeq, List.filter_cons, hc, if_true]
      simp only [parensNonneg]
      have := ih
      simp only [parenSeq] at this
      split_ifs <;> simp [this]

theorem balStackAux_nonneg : ∀ (l stack : List Char),
    balStackAux l stack = true → parensNonneg l stack.length = true := by
  intro l
  induction l with
  | nil => intro stack _; rfl
  | cons c cs ih =>
    intro stack h
    simp only [balStackAux] at h
    simp only [parensNonneg]
    split_ifs at h ⊢ with h1 h2
    · exact ih _ h
    · cases stack with
      | nil => cases h
      | cons x rest =>
        simpa using ih _ h
    · exact ih _ h

theorem length_dropWhile_le' (l : List Char) (p : Char → Bool) :
    (l.dropWhile p).length ≤ l.length := by
  induction l with
  | nil => simp
  | cons c cs ih =>
    rw [List.dropWhile_cons]
    split_ifs
    · exact Nat.le_succ_of_le ih
    · simp

theorem beq_mk_single (c d : Char) : (String.mk [c] == String.mk [d]) = (c == d) := by
  cases hc : c == d with
  | false =>
    apply beq_eq_false_iff_ne.mpr
    intro he
    have hcd : c = d := by simpa using congrArg String.data he
    rw [hcd] at hc
    simp at hc
  | true =>
    rw [eq_of_beq hc]
    simp

theorem isParenTok_mk_single (c : Char) : isParenTok (String.mk [c]) = isParenChar c := by
  unfold isParenTok isParenChar
  rw [show ("(" : String) = String.mk ['('] from rfl, show (")" : String) = String.mk [')'] from rfl,
    beq_mk_single, beq_mk_single]

theorem parenSeq_eq_nil_of_all {l : List Char} (h : ∀ c ∈ l, isParenChar c = false) :
    parenSeq l = [] := by
  unfold parenSeq
  induction l with
  | nil => rfl
  | cons c cs ih =>
    rw [List.filter_cons, if_neg (by simp [h c (List.mem_cons_self _ _)])]
    exact ih (fun c' hc' => h c' (List.mem_cons_of_mem _ hc'))

theorem scanTokensF_parens : ∀ (f : Nat) (l : List Char), l.length ≤ f →
    (scanTokensF f l).filter isParenTok = (parenSeq l).map (fun c => String.mk [c]) := by
  intro f
  induction f with
  | zero =>
    intro l hl
    have : l = [] := List.length_eq_zero.mp (Nat.le_zero.mp hl)
    rw [this]
    rfl
  | succ f ih =>
    intro l hl
    cases l with
    | nil => rfl
    | cons c cs =>
      simp only [scanTokensF]
      split_ifs with h1 h2
      · -- alphanumeric run
        have htok : isParenTok (String.mk (c :: cs.takeWhile isAlnumChar)) = false := by
          rw [Bool.eq_false_iff]
          intro htk
          rcases (by simpa [isParenTok] using htk :
              String.mk (c :: cs.takeWhile isAlnumChar) = "(" ∨
                String.mk (c :: cs.takeWhile isAlnumChar) = ")") with he | he <;>
          · have hd := congrArg String.data he
            simp at hd
            rw [hd.1] at h1
            exact absurd h1 (by decide)
        rw [List.filter_cons, if_neg (by simp [htok])]
        have hdrop : (cs.dropWhile isAlnumChar).length ≤ f := by
          have h' := length_dropWhile_le' cs isAlnumChar
          have h'' : cs.length ≤ f := by simpa using Nat.le_of_succ_le_succ hl
          omega
        rw [ih _ hdrop]
        have hseq : parenSeq (c :: cs) = parenSeq (cs.dropWhile isAlnumChar) := by
          have hsplit : c :: cs = (c :: cs.takeWhile isAlnumChar) ++ cs.dropWhile isAlnumChar := by
            simp [List.takeWhile_append_dropWhile]
          rw [hsplit]
          unfold parenSeq
          rw [List.filter_append]
          have : (c :: cs.takeWhile isAlnumChar).filter isParenChar = [] := by
            apply parenSeq_eq_nil_of_all
            intro c' hc'
            rcases List.mem_cons.mp hc' with h' | h'
            · rw [h']
              exact isAlnumChar_not_paren h1
            · exact isAlnumChar_not_paren (List.mem_takeWhile_imp h')
          rw [this]
          rfl
        rw [hseq]
      · -- recognised symbol character
        rw [List.filter_cons, isParenTok_mk_single]
        have hrec := ih cs (by simpa using Nat.le_of_succ_le_succ hl)
        cases hc : isParenChar c with
        | false =>
          simp only [Bool.false_eq_true, if_false]
          rw [hrec]
          unfold parenSeq
          rw [List.filter_cons, if_neg (by simp [hc])]
        | true =>
          simp only [if_true]
          rw [hrec]
          unfold parenSeq
          rw [List.filter_cons, if_pos (by simp [hc])]
          rfl
      · -- skipped character: '(' and ')' are in `symChars`, so it is no paren
        have hc : isParenChar c = false := by
          rw [Bool.eq_false_iff]
          intro hp
          rcases isParenChar_iff.mp hp with h' | h' <;> rw [h'] at h2 <;>
            exact h2 (by decide)
        rw [ih cs (by simpa using Nat.le_of_succ_le_succ hl)]
        unfold parenSeq
        rw [List.filter_cons, if_neg (by simp [hc])]

/-- The whitespace-stripping token filter of `_tokenize` keeps every
parenthesis token. -/
theorem filter_keep_parens (ts : List String) :
    (ts.filter (fun t => !(stripChars t.data).isEmpty)).filter isParenTok =
      ts.filter isParenTok := by
  induction ts with
  | nil => rfl
  | cons t ts ih =>
    cases hp : isParenTok t with
    | true =>
      have hkeep : (!(stripChars t.data).isEmpty) = true := by
        rcases (by simpa [isParenTok] using hp : t = "(" ∨ t = ")") with h' | h' <;>
          rw [h'] <;> rfl
      rw [List.filter_cons, if_pos (by simp [hkeep]), List.filter_cons, if_pos (by simp [hp]),
        List.filter_cons, if_pos (by simp [hp]), ih]
    | false =>
      rw [List.filter_cons]
      split_ifs with hk
      · rw [List.filter_cons, if_neg (by simp [hp]), List.filter_cons, if_neg (by simp [hp])]
        exact ih
      · rw [List.filter_cons, if_neg (by simp [hp])]
        exact ih

theorem tokParensNonneg_filter : ∀ (ts : List String) (n : Nat),
    tokParensNonneg (ts.filter isParenTok) n = tokParensNonneg ts n := by
  intro ts
  induction ts with
  | nil => intro n; rfl
  | cons t ts ih =>
    intro n
    cases hp : isParenTok t with
    | false =>
      have hne : ¬t = "(" ∧ ¬t = ")" := by simpa [isParenTok] using hp
      have h1 : (t == "(") = false := beq_eq_false_iff_ne.mpr hne.1
      have h2 : (t == ")") = false := beq_eq_false_iff_ne.mpr hne.2
      rw [List.filter_cons, if_neg (by simp [hp])]
      simp only [tokParensNonneg, h1, h2, Bool.false_eq_true, if_false]
      exact ih n
    | true =>
      rw [List.filter_cons, if_pos (by simp [hp])]
      simp only [tokParensNonneg]
      split_ifs <;> simp [ih]

theorem tokParensNonneg_map_single : ∀ (cs : List Char) (n : Nat),
    (∀ c ∈ cs, isParenChar c = true) →
    tokParensNonneg (cs.map (fun c => String.mk [c])) n = parensNonneg cs n := by
  intro cs
  induction cs with
  | nil => intro n _; rfl
  | cons c cs ih =>
    intro n h
    have hc := h c (List.mem_cons_self _ _)
    have hrest : ∀ c' ∈ cs, isParenChar c' = true :=
      fun c' hc' => h c' (List.mem_cons_of_mem _ hc')
    simp only [List.map_cons, tokParensNonneg, parensNonneg]
    rw [show ("(" : String) = String.mk ['('] from rfl, show (")" : String) = String.mk [')'] from rfl,
      beq_mk_single, beq_mk_single]
    split_ifs <;> simp [ih _ hrest]

/-- When the stack holds at least one `'('`, `popRP` succeeds and consumes
exactly one of them. -/
theorem popRP_some : ∀ (stack out : List String),
    0 < stack.countP (fun s => s == "(") →
    ∃ out₁ stack₁, popRP stack out = some (out₁, stack₁) ∧
      stack₁.countP (fun s => s == "(") = stack.countP (fun s => s == "(") - 1 := by
  intro stack
  induction stack with
  | nil => intro out h; simp at h
  | cons s ss ih =>
    intro out h
    cases hs : s == "(" with
    | true =>
      refine ⟨out, ss, ?_, ?_⟩
      · simp [popRP, hs]
      · rw [List.countP_cons, hs]
        simp
    | false =>
      have hcnt : (s :: ss).countP (fun s => s == "(") = ss.countP (fun s => s == "(") := by
        rw [List.countP_cons, hs]
        simp
      rw [hcnt] at h
      obtain ⟨out₁, stack₁, heq, hc⟩ := ih (out ++ [s]) h
      refine ⟨out₁, stack₁, ?_, ?_⟩
      · simp [popRP, hs, heq]
      · rw [hc, hcnt]

/-- `popOps` never pops a `'('`. -/
theorem popOps_countP : ∀ (stack out : List String) (t : String),
    (popOps t stack out).2.countP (fun s => s == "(") =
      stack.countP (fun s => s == "(") := by
  intro stack
  induction stack with
  | nil => intro out t; rfl
  | cons s ss ih =>
    intro out t
    simp only [popOps]
    split_ifs with hc
    · rw [ih, List.countP_cons]
      have hs : (s == "(") = false := by
        cases h : s == "(" with
        | false => rfl
        | true =>
          rw [h] at hc
          simp at hc
      rw [hs]
      simp
    · rfl

/-- Shunting-yard totality: when every `')'` token has a matching open
parenthesis, `toPostfix`'s loop can never pop an empty stack. -/
theorem syAux_total : ∀ (ts out stack : List String),
    tokParensNonneg ts (stack.countP (fun s => s == "(")) = true →
    ∃ pf, syAux ts out stack = some pf := by
  intro ts
  induction ts with
  | nil => intro out stack _; exact ⟨out ++ stack, rfl⟩
  | cons t ts ih =>
    intro out stack h
    simp only [syAux]
    split_ifs with h₁ h₂ h₃
    · have hT1 : (t == "(") = false := by
        cases ht : t == "(" with
        | false => rfl
        | true =>
          rw [eq_of_beq ht] at h₁
          exact absurd h₁ (by decide)
      have hT2 : (t == ")") = false := by
        cases ht : t == ")" with
        | false => rfl
        | true =>
          rw [eq_of_beq ht] at h₁
          exact absurd h₁ (by decide)
      simp only [tokParensNonneg, hT1, hT2, Bool.false_eq_true, if_false] at h
      exact ih _ _ h
    · have ht := eq_of_beq h₂
      subst ht
      simp only [tokParensNonneg, show (("(" : String) == "(") = true from rfl, if_true] at h
      apply ih
      rw [List.countP_cons]
      simpa using h
    · have ht := eq_of_beq h₃
      subst ht
      simp only [tokParensNonneg, show (((")") : String) == "(") = false from rfl,
        show (((")") : String) == ")") = true from rfl, Bool.false_eq_true, if_false, if_true,
        Bool.and_eq_true, decide_eq_true_eq] at h
      obtain ⟨hpos, hrest⟩ := h
      obtain ⟨out₁, stack₁, heq, hcnt⟩ := popRP_some stack out hpos
      rw [heq]
      apply ih
      rw [hcnt]
      exact hrest
    · have hT1 : (t == "(") = false := Bool.eq_false_iff.mpr h₂
      have hT2 : (t == ")") = false := Bool.eq_false_iff.mpr h₃
      simp only [tokParensNonneg, hT1, hT2, Bool.false_eq_true, if_false] at h
      apply ih
      rw [List.countP_cons, popOps_countP, hT1]
      simpa using h

/-- A text accepted by the validator has balanced parentheses (check 2 of
`validate_expression`, performed on the stripped text). -/
theorem validate_ok_balanced (s : String) (h : (validate_expression s).1 = true) :
    balStackAux (stripChars s.data) [] = true := by
  cases hcb : check_balanced_parentheses (pyStrip s) with
  | true => exact hcb
  | false =>
    exfalso
    have hfalse : (validate_expression s).1 = false := by
      simp only [validate_expression, hcb]
      split_ifs with ha hb hc
      · rfl
      · rfl
      · exact absurd rfl hb
      · exact absurd rfl hb
    rw [hfalse] at h
    simp at h

/-- The central safety fact behind the amended round-trip claim: validation
success implies that `toPostfix` cannot raise — evaluation always reaches
the postfix phase and produces a value of `Except EvalErr Bool`. -/
theorem validate_toPostfix (s : String) (h : (validate_expression s).1 = true) :
    ∃ pf, toPostfix s = some pf := by
  have hb : balStackAux (stripChars s.data) [] = true := validate_ok_balanced s h
  have h1 : parensNonneg (stripChars s.data) 0 = true := by
    simpa using balStackAux_nonneg _ _ hb
  have h2 : parensNonneg s.data 0 = true := by
    rw [← parensNonneg_parenSeq] at h1 ⊢
    rw [parenSeq_stripChars] at h1
    exact h1
  have h3 : parensNonneg (applyReplacements (s.data.map pyUpperChar)) 0 = true := by
    rw [← parensNonneg_parenSeq, parenSeq_applyReplacements, parenSeq_map_pyUpper,
      parensNonneg_parenSeq]
    exact h2
  have h4 : tokParensNonneg (tokenize s) 0 = true := by
    rw [← tokParensNonneg_filter]
    unfold tokenize scanTokens
    rw [filter_keep_parens, scanTokensF_parens _ _ (le_refl _),
      tokParensNonneg_map_single (parenSeq (applyReplacements (s.data.map pyUpperChar))) 0
        (fun c hc => List.of_mem_filter hc),
      parensNonneg_parenSeq]
    exact h3
  exact syAux_total (tokenize s) [] [] (by simpa using h4)

/-! ### Claim theorems -/

/-- **C1** (counterexample): the round trip fails — `"A B"` passes
`validate_expression`, yet `evaluate_expression` raises
`ValueError("Invalid expression: too many operands")` on it, so an
evaluation-time error branch is reachable under the claimed
precondition. -/
theorem claim_C1_counterexample :
    (validate_expression "A B").1 = true ∧
      evaluate_expression "A B" (fun _ => none) =
        some (Except.error EvalErr.tooManyOperands) := ⟨rfl, rfl⟩

/-- **C1** (amended): for every validated text and every assignment,
evaluation terminates and reaches the postfix phase (`toPostfix` cannot
raise, because validation guarantees balanced parentheses), returning a
boolean or one of the evaluation-time errors; but the three
evaluation-time error branches all remain reachable under that
precondition — negation with a missing operand at `"¬¬A"` (the
shunting-yard pops a pending unary `¬` at equal precedence), missing
binary operands at `"A ∧ ∧ B"`, and a leftover operand at `"A A"`. -/
theorem claim_C1_validated_evaluation (s : String) (asn : String → Option Bool)
    (h : (validate_expression s).1 = true) :
    (∃ r : Except EvalErr Bool, evaluate_expression s asn = some r) ∧
      (validate_expression "¬¬A").1 = true ∧
      evaluate_expression "¬¬A" (fun _ => none) =
        some (Except.error EvalErr.missingOperandNeg) ∧
      (validate_expression "A ∧ ∧ B").1 = true ∧
      evaluate_expression "A ∧ ∧ B" (fun _ => none) =
        some (Except.error (EvalErr.missingOperands "∧")) ∧
      (validate_expression "A A").1 = true ∧
      evaluate_expression "A A" (fun _ => none) =
        some (Except.error EvalErr.tooManyOperands) := by
  obtain ⟨pf, hpf⟩ := validate_toPostfix s h
  refine ⟨⟨evalPostfix asn pf [], ?_⟩, rfl, rfl, rfl, rfl, rfl, rfl⟩
  unfold evaluate_expression
  rw [hpf]
  rfl

/-- **C1** witness: the amended theorem applied to the validated text
`"A"` under the empty assignment. -/
theorem claim_C1_witness :
    (∃ r : Except EvalErr Bool, evaluate_expression "A" (fun _ => none) = some r) ∧
      (validate_expression "¬¬A").1 = true ∧
      evaluate_expression "¬¬A" (fun _ => none) =
        some (Except.error EvalErr.missingOperandNeg) ∧
      (validate_expression "A ∧ ∧ B").1 = true ∧
      evaluate_expression "A ∧ ∧ B" (fun _ => none) =
        some (Except.error (EvalErr.missingOperands "∧")) ∧
      (validate_expression "A A").1 = true ∧
      evaluate_expression "A A" (fun _ => none) =
        some (Except.error EvalErr.tooManyOperands) :=
  claim_C1_validated_evaluation "A" (fun _ => none) rfl

/-- **C2** (code bug): the multi-character-token check of
`_check_variable_names` is dead code — its guard
`_is_variable(token) and len(token) > 1` is contradictory because
`_is_variable` requires `len(token) == 1` — so, contrary to the claim, an
unknown multi-character token such as `"FOO"` is never reported:
`validate_expression` accepts it as a valid expression. -/
theorem claim_C2_dead_check :
    (∀ e : String, check_variable_names e = none) ∧
      validate_expression "FOO" = (true, "Valid expression") := by
  constructor
  · intro e
    unfold check_variable_names
    generalize tokenize e = ts
    induction ts with
    | nil => rfl
    | cons t ts ih =>
      have hguard : (is_variable t && decide (1 < t.length) && !isDigitStr t) = false := by
        cases hv : is_variable t with
        | false => simp
        | true =>
          obtain ⟨l⟩ := t
          cases l with
          | nil => simp [is_variable] at hv
          | cons c l' =>
            cases l' with
            | nil => simp [String.length]
            | cons c₂ l'' => simp [is_variable] at hv
      simp only [check_variable_names_go, hguard, Bool.false_eq_true, if_false]
      exact ih
  · rfl

/-- **C3** (counterexample): in the source's precedence table XOR does not
bind at the AND tier: `'XOR'` has precedence 2 while `'AND'` has 3. -/
theorem claim_C3_counterexample : ¬ (prec "XOR" = prec "AND") := by decide

/-- **C3** (amended): XOR (`⊕`, `^`, `XOR`) shares precedence 2 with the
OR tier (`∨`, `|`, `||`, `OR`, `NOR`), strictly below AND/NAND at 3;
IMPLIES and IFF (XNOR) sit at the lowest tier 1, negation at the top
tier 4, and every operator's precedence lies between 1 and 4. -/
theorem claim_C3_amended :
    prec "⊕" = 2 ∧ prec "^" = 2 ∧ prec "XOR" = 2 ∧
    prec "∨" = 2 ∧ prec "|" = 2 ∧ prec "||" = 2 ∧ prec "OR" = 2 ∧ prec "NOR" = 2 ∧
    prec "∧" = 3 ∧ prec "&" = 3 ∧ prec "&&" = 3 ∧ prec "AND" = 3 ∧ prec "NAND" = 3 ∧
    prec "→" = 1 ∧ prec "->" = 1 ∧ prec "=>" = 1 ∧ prec "IMP" = 1 ∧
    prec "↔" = 1 ∧ prec "<->" = 1 ∧ prec "<=>" = 1 ∧ prec "XNOR" = 1 ∧
    prec "¬" = 4 ∧ prec "~" = 4 ∧ prec "!" = 4 ∧
    (operator_precedence.all (fun p => 1 ≤ p.2 && p.2 ≤ 4)) = true := by decide

/-- **C4** (counterexample): validity of the text does not suffice for the
claimed table shape — `"B ∨ ∨ C"` passes `validate_expression` and has the
two distinct variables B and C, yet `generate_truth_table` raises (returns
no rows at all) because per-row evaluation fails. -/
theorem claim_C4_counterexample :
    (validate_expression "B ∨ ∨ C").1 = true ∧
      sorted_variables "B ∨ ∨ C" = ["B", "C"] ∧
      generate_truth_table "B ∨ ∨ C" = none := ⟨rfl, rfl, rfl⟩

/-- **C4** (amended): whenever `generate_truth_table` succeeds with a
nonempty variable list of length n, it returns exactly `2 ^ n` rows, and
the summary's true count plus false count equals `2 ^ n`. -/
theorem claim_C4_table_size (s : String) (rows : List TTRow) (vars : List String)
    (h : generate_truth_table s = some (rows, vars)) (hn : vars ≠ []) :
    rows.length = 2 ^ vars.length ∧
      (get_truth_table_summary rows).map (fun su => su.true_count + su.false_count) =
        some (2 ^ vars.length) := by
  simp only [generate_truth_table] at h
  split at h
  · cases h
  · split at h
    · split at h
      · cases h with
        | refl => exact absurd rfl hn
      · cases h
    · obtain ⟨rows₀, hb, heq⟩ := Option.map_eq_some'.mp h
      have heq' : (rows₀, sorted_variables s) = (rows, vars) := heq
      rw [Prod.mk.injEq] at heq'
      obtain ⟨hr, hv⟩ := heq'
      rw [← hr, ← hv]
      have hlen : rows₀.length = 2 ^ (sorted_variables s).length := by
        rw [buildRows_length _ _ _ _ hb, boolCombos_length]
      refine ⟨hlen, ?_⟩
      have hne : rows₀.isEmpty = false := by
        have hpos : 0 < rows₀.length := by
          rw [hlen]
          exact pow_pos (by norm_num) _
        cases rows₀ with
        | nil => simp at hpos
        | cons a l => rfl
      simp only [get_truth_table_summary, hne, Bool.false_eq_true, if_false,
        Option.map_some', Option.some.injEq]
      have hle : (rows₀.filter (fun r => r.2)).length ≤ rows₀.length :=
        List.length_filter_le _ _
      omega

/-- **C4** witness: on `"A ∧ B"` the generated table has `2 ^ 2` rows and
the summary counts add up to `2 ^ 2`. -/
theorem claim_C4_witness :
    ([([("A", false), ("B", false)], false),
      ([("A", false), ("B", true)], false),
      ([("A", true), ("B", false)], false),
      ([("A", true), ("B", true)], true)] : List TTRow).length =
        2 ^ (["A", "B"] : List String).length ∧
      (get_truth_table_summary
          [([("A", false), ("B", false)], false),
           ([("A", false), ("B", true)], false),
           ([("A", true), ("B", false)], false),
           ([("A", true), ("B", true)], true)]).map
        (fun su => su.true_count + su.false_count) =
        some (2 ^ (["A", "B"] : List String).length) :=
  claim_C4_table_size "A ∧ B"
    [([("A", false), ("B", false)], false),
     ([("A", false), ("B", true)], false),
     ([("A", true), ("B", false)], false),
     ([("A", true), ("B", true)], true)] ["A", "B"] rfl (by decide)

/-- **C10**: evaluation depends only on the assignment's values at the
names in `extract_variables`: two assignments that agree there yield the
same outcome — the same boolean, or the same error. -/
theorem claim_C10_noninterference (s : String) (a₁ a₂ : String → Option Bool)
    (h : ∀ v ∈ extract_variables s, a₁ v = a₂ v) :
    evaluate_expression s a₁ = evaluate_expression s a₂ :=
  evaluate_congr s a₁ a₂ (fun v hv => by rw [h v hv])

/-- **C10** witness: two assignments that agree on A and B but disagree on
the unused name C evaluate `A ∧ B` identically. -/
theorem claim_C10_witness :
    evaluate_expression "A ∧ B"
        (fun v => if v == "A" then some true else if v == "B" then some false else none) =
      evaluate_expression "A ∧ B"
        (fun v => if v == "A" then some true else if v == "B" then some false
          else some true) :=
  claim_C10_noninterference "A ∧ B" _ _ (by
    intro v hv
    rw [show extract_variables "A ∧ B" = ["A", "B"] from rfl] at hv
    rcases (by simpa using hv : v = "A" ∨ v = "B") with hv' | hv' <;> rw [hv'] <;> rfl)

/-- **C5**: `generate_truth_table "A XOR B"` enumerates the four
assignments in binary counting order (first variable most significant,
false before true) with results F, T, T, F. -/
theorem claim_C5_xor_table :
    generate_truth_table "A XOR B" =
      some ([([("A", false), ("B", false)], false),
             ([("A", false), ("B", true)], true),
             ([("A", true), ("B", false)], true),
             ([("A", true), ("B", true)], false)], ["A", "B"]) := rfl

/-- **C6**: a variable absent from the assignment evaluates as `false`:
extending the assignment with `false` at an unmapped name changes nothing
about `evaluate_expression`'s outcome (value or error). -/
theorem claim_C6_default_false (s : String) (asn : String → Option Bool) (x : String)
    (h : asn x = none) :
    evaluate_expression s asn =
      evaluate_expression s (fun v => if v == x then some false else asn v) := by
  apply evaluate_congr
  intro v _
  by_cases hvx : v == x
  · rw [if_pos hvx, eq_of_beq hvx, h]
    rfl
  · rw [if_neg (by simpa using hvx)]

/-- **C6** witness: extending `{A ↦ true}` with `B ↦ false` does not change
the evaluation of `A ∧ B`. -/
theorem claim_C6_witness :
    evaluate_expression "A ∧ B" (fun v => if v == "A" then some true else none) =
      evaluate_expression "A ∧ B"
        (fun v => if v == "B" then some false
          else if v == "A" then some true else none) :=
  claim_C6_default_false "A ∧ B" (fun v => if v == "A" then some true else none) "B" rfl

/-- **C7**: De Morgan duality of the evaluator — `¬(A ∧ B)` and `¬A ∨ ¬B`
evaluate identically under all four assignments of A and B. -/
theorem claim_C7_de_morgan : ∀ b₁ b₂ : Bool,
    evaluate_expression "¬(A ∧ B)"
        (fun v => if v == "A" then some b₁ else if v == "B" then some b₂ else none) =
      evaluate_expression "¬A ∨ ¬B"
        (fun v => if v == "A" then some b₁ else if v == "B" then some b₂ else none) := by
  intro b₁ b₂
  cases b₁ <;> cases b₂ <;> rfl

/-- **C8**: the simplifier's rewrite loop performs at most 20 iterations,
and when it stops below the cap the final expression is one on which an
iteration applies no rule and removes no parentheses; `simplify` then runs
its single cleanup pass on that result. -/
theorem claim_C8_termination (s : String) :
    (simplifyLoopResult s).2.2 ≤ 20 ∧
      ((simplifyLoopResult s).2.2 = 20 ∨
        (iterOnce (simplifyLoopResult s).1).2.2 = false) := by
  have hdef : simplifyLoopResult s =
      simplifyLoop 20 (normalize_expression s) ["Original: " ++ normalize_expression s] := rfl
  rw [hdef]
  exact simplifyLoop_spec 20 (normalize_expression s) ["Original: " ++ normalize_expression s]

/-- **C9**: `simplify "A ∧ 1"` returns `"A"` with exactly one
rule-application step (the identity law) after the `Original` entry. -/
theorem claim_C9_identity :
    simplify "A ∧ 1" = ("A", ["Original: A ∧ 1", "Applied A ∧ 1 → A: A"]) := rfl

